import Mathlib

/-!
Verification of the release-generation script (releaseGen.py).

The script assembles firmware release bundles: it loads a YAML release
configuration, selects a release and per-target build images, resolves
configured file groups by walking directories, builds a Python-package
zip archive (with a synthesized setup.py and a rewritten top-package
initializer) and a CPSW tar archive, and optionally tags and publishes
the release.

This file gives a shallow embedding of the script: pure functions mirror
the script's functions, filesystem contents are passed in explicitly
(directory listings, directory trees, file contents), and the archive and
git side effects are modelled as explicit traces of write actions.
-/

namespace ReleaseGen

/-! ### Basic string utilities -/

/-- Python substring membership `pat in s`, on character lists:
true when `pat` occurs contiguously inside `l`. -/
def containsSeq (pat : List Char) : List Char → Bool
  | [] => pat.isEmpty
  | c :: cs => pat.isPrefixOf (c :: cs) || containsSeq pat cs

/-- Python `sub in s` for strings. -/
def strContains (s sub : String) : Bool :=
  containsSeq sub.data s.data

/-- `os.path.join(a, b)` restricted to the POSIX behaviour the script
relies on: an absolute second component replaces the first, a first
component that is empty or already ends in a separator is concatenated
directly, otherwise a separator is inserted. -/
def pathJoin (a b : String) : String :=
  if "/".data.isPrefixOf b.data then b
  else if a.data.isEmpty || "/".data.isSuffixOf a.data then a ++ b
  else a ++ "/" ++ b

/-! ### Configuration model (loadReleaseConfig) -/

/-- A parsed YAML value, as far as the script inspects one: the `None`
value (an empty YAML entry), a scalar string, or a mapping. -/
inductive YVal where
  | null
  | str (s : String)
  | map (entries : List (String × YVal))

/-- Whether a YAML value is Python `None`. -/
def YVal.isNull : YVal → Bool
  | .null => true
  | _ => false

/-- Dictionary lookup `cfg[key]` on a parsed mapping (`None` when the key
is absent, mirroring the script's `key in cfg` guard). -/
def yLookup (cfg : List (String × YVal)) (key : String) : Option YVal :=
  match cfg.find? (fun p => p.1 == key) with
  | some p => some p.2
  | none => none

/-- `key in cfg and cfg[key] is not None`. -/
def hasNonNull (cfg : List (String × YVal)) (key : String) : Bool :=
  match yLookup cfg key with
  | some v => !v.isNull
  | none => false

/-- `loadReleaseConfig`, after the YAML text has been parsed into `cfg`:
raises unless both `Releases` and `Targets` are present and not `None`,
and otherwise returns the parsed configuration unchanged. -/
def loadReleaseConfig (cfg : List (String × YVal)) : Except String (List (String × YVal)) :=
  if hasNonNull cfg "Releases" = false then
    Except.error "Invalid release config. Releases key is missing or empty!"
  else if hasNonNull cfg "Targets" = false then
    Except.error "Invalid release config. Targets key is missing or empty!"
  else
    Except.ok cfg

/-! ### Interactive index selection (selectRelease / selectBuildImages) -/

/-- Errors arising from the index-entry prompts: the script's explicit
`Invalid ... index` exception, or Python's own `IndexError` raised by
list subscripting. -/
inductive SelErr where
  | validation (msg : String)
  | indexError
deriving DecidableEq

/-- Python list subscripting `l[i]` with an `int` index: non-negative
indices address from the front, negative indices address from the end
(`l[i]` is `l[len l + i]`), and anything out of range raises
`IndexError`. -/
def pyListIndex (l : List String) (i : Int) : Except SelErr String :=
  if 0 ≤ i then
    match l.get? i.toNat with
    | some v => Except.ok v
    | none => Except.error SelErr.indexError
  else if (l.length : Int) + i < 0 then
    Except.error SelErr.indexError
  else
    match l.get? ((l.length : Int) + i).toNat with
    | some v => Except.ok v
    | none => Except.error SelErr.indexError

/-- The shared shape of the script's two index prompts: an entered index
is rejected with the given message when `idx >= len(l)`, and otherwise
the prompt returns `l[idx]` by Python subscripting. -/
def indexPrompt (l : List String) (idx : Int) (msg : String) : Except SelErr String :=
  if (l.length : Int) ≤ idx then Except.error (SelErr.validation msg)
  else pyListIndex l idx

/-- The index branch of `selectRelease`. -/
def selectReleaseIndex (keyList : List String) (idx : Int) : Except SelErr String :=
  indexPrompt keyList idx "Invalid release index"

/-- The index branch of `selectBuildImages`. -/
def selectBuildIndex (sortList : List String) (idx : Int) : Except SelErr String :=
  indexPrompt sortList idx "Invalid build index"

/-! ### Build-image selection (selectBuildImages) -/

/-- `fn.split(Chr 46)[0]`: the text before the first dot (the whole name
when there is no dot). -/
def pyBaseName (fn : String) : String :=
  String.mk (fn.data.takeWhile (fun c => c ≠ '.'))

/-- Python string comparison `a <= b` on character lists: lexicographic
by code point, a proper prefix ordering before any extension. -/
def pyLexLe : List Char → List Char → Bool
  | [], _ => true
  | _ :: _, [] => false
  | a :: as, b :: bs => if a = b then pyLexLe as bs else decide (a.toNat < b.toNat)

/-- Python string comparison as a relation on strings. -/
def pyStrLe (a b : String) : Prop :=
  pyLexLe a.data b.data = true

instance : DecidableRel pyStrLe := fun a b =>
  inferInstanceAs (Decidable (pyLexLe a.data b.data = true))

/-- The candidate build base names for a target: base names of the files
in the image directory whose name contains the target identifier.  The
script collects them into a Python `set`; the model deduplicates the
same collection. -/
def buildCandidates (target : String) (dirList : List String) : List String :=
  ((dirList.filter (fun fn => strContains fn target)).map pyBaseName).dedup

/-- `sorted(baseList)`: the candidate base names in ascending Python
string order. -/
def sortedBuildList (target : String) (dirList : List String) : List String :=
  List.insertionSort pyStrLe (buildCandidates target dirList)

/-- The `--build latest` selection: `sortList[-1]`, the last element of
the ascending sort. -/
def selectLatestBuild (target : String) (dirList : List String) : Option String :=
  (sortedBuildList target dirList).getLast?

/-- The image-collection loop of `selectBuildImages`: for the chosen
`buildName`, the files of the directory listing whose name is
`buildName.ext` for a declared extension, in directory-listing order,
joined to the image directory. -/
def selectImagesForTarget (imageDir buildName : String)
    (extensions dirList : List String) : List String :=
  let tarList := extensions.map (fun ext => buildName ++ "." ++ ext)
  (dirList.filter (fun f => tarList.contains f)).map (fun f => pathJoin imageDir f)

/-- Modelled from the spec: the artifact list the specification describes
for a chosen base name, namely one entry per declared extension in
extension-declaration order, kept when the file is present in the
directory listing. -/
def specImagesByExtensionOrder (imageDir buildName : String)
    (extensions dirList : List String) : List String :=
  (extensions.filterMap (fun ext =>
    if dirList.contains (buildName ++ "." ++ ext) then
      some (pathJoin imageDir (buildName ++ "." ++ ext))
    else none))

/-! ### File-set resolution (genFileList / selectFiles) -/

/-- The scanning loop of Python `s.replace(pat, new)` with an empty
replacement string: delete the leftmost occurrence of `pat`, continue
scanning after it, repeat.  The fuel argument only forces structural
termination; it never runs out when it starts at the length of the
scanned list, since every step consumes at least one character. -/
def replaceDropAux (pat : List Char) : Nat → List Char → List Char
  | _, [] => []
  | 0, l => l
  | fuel + 1, c :: cs =>
    if pat ≠ [] ∧ pat.isPrefixOf (c :: cs) = true then
      replaceDropAux pat fuel ((c :: cs).drop pat.length)
    else
      c :: replaceDropAux pat fuel cs

/-- Python `s.replace(pat, new)` with an empty replacement string. -/
def replaceDrop (pat l : List Char) : List Char :=
  replaceDropAux pat l.length l

/-- A file entry produced by `genFileList`: the `type` tag
(`folder` or `file`), the absolute path, and the archive-internal
path obtained by `fullPath.replace(base + Chr 47, Chr 0-string)`. -/
structure FileEntry where
  type : String
  fullPath : String
  subPath : String
deriving DecidableEq, Repr

/-- `genFileList(base, root, entries, typ)`. -/
def genFileList (base root : String) (entries : List String) (typ : String) :
    List FileEntry :=
  entries.map (fun e =>
    let fullPath := pathJoin root e
    { type := typ
      fullPath := fullPath
      subPath := String.mk (replaceDrop (base ++ "/").data fullPath.data) })

/-- The ordered contents of a directory: a sequence of named plain files
and named subdirectories, each subdirectory carrying its own contents. -/
inductive FsListing where
  | nil
  | file (name : String) (rest : FsListing)
  | dir (name : String) (children : FsListing) (rest : FsListing)

/-- Names of the subdirectories of a directory, in listing order. -/
def dirNames : FsListing → List String
  | .nil => []
  | .file _ rest => dirNames rest
  | .dir name _ rest => name :: dirNames rest

/-- Names of the plain files of a directory, in listing order. -/
def fileNames : FsListing → List String
  | .nil => []
  | .file name rest => name :: fileNames rest
  | .dir _ _ rest => fileNames rest

/-- The recursive part of `os.walk` (top-down): the walks of the
subdirectories of `root`, in listing order, each contributing its own
triple and then its subdirectories. -/
def walkSubdirs (root : String) : FsListing → List (String × List String × List String)
  | .nil => []
  | .file _ rest => walkSubdirs root rest
  | .dir n cs rest =>
      (pathJoin root n, dirNames cs, fileNames cs) ::
        (walkSubdirs (pathJoin root n) cs ++ walkSubdirs root rest)

/-- `os.walk(root)` (top-down): the triple for `root` itself followed by
the walks of its subdirectories in listing order. -/
def walkDir (root : String) (children : FsListing) :
    List (String × List String × List String) :=
  (root, dirNames children, fileNames children) :: walkSubdirs root children

/-- The per-base-directory part of `selectFiles`: walk `base` and record
every folder and file of every visited directory as a `FileEntry`
(folders first at each step, as in the script). -/
def walkEntries (base : String) (children : FsListing) : List FileEntry :=
  (walkDir base children).flatMap (fun t =>
    genFileList base t.1 t.2.1 "folder" ++ genFileList base t.1 t.2.2 "file")

/-- `selectFiles(cfg, relData, key)`: the global list under `key` (when
present and not `None`) followed by the release-specific list, each
directory walked from `FirmwareDir/d`; `resolve` supplies the directory
tree found at a base path. -/
def selectFiles (firmwareDir : String) (globalList relList : Option (List String))
    (resolve : String → FsListing) : List FileEntry :=
  let dirList := globalList.getD [] ++ relList.getD []
  dirList.flatMap (fun d =>
    let base := pathJoin firmwareDir d
    walkEntries base (resolve base))

/-- All nodes of a directory tree below a root, as (absolute path, type
tag) pairs, in tree order. -/
def allNodes (root : String) : FsListing → List (String × String)
  | .nil => []
  | .file name rest => (pathJoin root name, "file") :: allNodes root rest
  | .dir name cs rest =>
      (pathJoin root name, "folder") ::
        (allNodes (pathJoin root name) cs ++ allNodes root rest)

/-- Modelled from the spec: the relative path the specification
describes, namely the absolute path with the base-directory prefix and
its trailing separator stripped (unchanged when the prefix is absent). -/
def specStripBaseDir (base absPath : String) : String :=
  if (base ++ "/").data.isPrefixOf absPath.data then
    String.mk (absPath.data.drop (base ++ "/").data.length)
  else absPath

/-! ### Package archive construction (buildRogueFile) -/

/-- `os.path.basename`: the part of a path after its last separator. -/
def pyBasename (p : String) : String :=
  String.mk ((p.data.reverse.takeWhile (fun c => c ≠ '/')).reverse)

/-- Whether a line of the original initializer is dropped by the rewrite
loop: it contains one of the four recognized markers. -/
def strippedMarker (line : String) : Bool :=
  strContains line "import os" || strContains line "__version__" ||
  strContains line "ConfigDir" || strContains line "ImageDir"

/-- The fixed block the rewrite appends after the kept lines. -/
def appendedBlock (ver : String) : String :=
  "\n\n" ++
  "##################### Added by release script ###################\n" ++
  "import os\n" ++
  "__version__ = '" ++ ver ++ "'\n" ++
  "ConfigDir = os.path.dirname(__file__) + '/config'\n" ++
  "ImageDir  = os.path.dirname(__file__) + '/images'\n" ++
  "#################################################################\n"

/-- The initializer rewrite: keep the lines (terminators included, as
Python file iteration yields them) that carry no marker, then append the
fixed block. -/
def rewriteInit (lines : List String) (ver : String) : String :=
  String.join (lines.filter (fun l => !strippedMarker l)) ++ appendedBlock ver

/-- The part of the synthesized `setup.py` text after the opening of the
packages list: one quoted line per folder-type archive path, the closing
bracket, the package-data line and the closing parenthesis. -/
def setupPyTail (topPackage : String) (folderDsts : List String) : String :=
  String.join (folderDsts.map (fun d => "             '" ++ d ++ "',\n")) ++
  "            ],\n" ++
  "   package_data=\x7b'" ++ topPackage ++ "':['config/*','images/*']\x7d\n" ++
  ")\n"

/-- The synthesized `setup.py` text, exactly as the script concatenates
it: `folderDsts` are the archive paths of the folder-type entries of the
primary package group, in order. -/
def setupPyStr (relName ver topPackage : String) (folderDsts : List String) : String :=
  "\n\nfrom distutils.core import setup\n\n" ++
  "setup (\n" ++
  "   name='" ++ relName ++ "',\n" ++
  "   version='" ++ ver ++ "',\n" ++
  "   packages=[\n" ++
  setupPyTail topPackage folderDsts

/-- A write into the zip archive: `fromDisk` copies a file from disk to
an archive path (`zf.write`), `fromData` writes synthesized bytes at an
archive path (`zf.open(dst, w-mode)` followed by `write`). -/
inductive ZipWrite where
  | fromDisk (src dst : String)
  | fromData (dst : String) (content : String)
deriving DecidableEq, Repr

/-- The archive path a write lands at. -/
def ZipWrite.dst : ZipWrite → String
  | .fromDisk _ d => d
  | .fromData d _ => d

/-- Whether a write copies raw bytes from disk. -/
def ZipWrite.isDisk : ZipWrite → Bool
  | .fromDisk _ _ => true
  | .fromData _ _ => false

/-- `buildRogueFile`, as the ordered trace of writes into the zip file
plus the error that aborts the build, if any.  `readFile` supplies the
lines of a file on disk.  The trace mirrors the script: primary-group
entries (skipping the top-package initializer, whose disk path is
captured instead, last match winning), then config-group files under
`TopPackage/config/`, then selected images under `TopPackage/images/`,
then the synthesized `setup.py`, then the rewritten initializer at its
original path.  When no primary entry matches the initializer path the
captured path stays unset and the final read fails after all earlier
writes have happened. -/
def buildRogueTrace (topPackage : Option String) (relName ver : String)
    (pList cList : List FileEntry) (imgList : List String)
    (readFile : String → List String) : List ZipWrite × Option String :=
  if pList.length = 0 then
    ([], some "Invalid release config. Rogue packages list is empty!")
  else
    match topPackage with
    | none => ([], some "Invalid release config. TopPackage is not defined!")
    | some tp =>
      let topInit := tp ++ "/__init__.py"
      let pWrites := pList.filterMap (fun e =>
        if e.subPath = topInit then none
        else some (ZipWrite.fromDisk e.fullPath e.subPath))
      let topPath := ((pList.filter (fun e => e.subPath = topInit)).map
        (fun e => e.fullPath)).getLast?
      let folderDsts := (pList.filter (fun e => e.type = "folder")).map
        (fun e => e.subPath)
      let cWrites := cList.map (fun e =>
        ZipWrite.fromDisk e.fullPath (tp ++ "/config/" ++ e.subPath))
      let iWrites := imgList.map (fun p =>
        ZipWrite.fromDisk p (tp ++ "/images/" ++ pyBasename p))
      let sWrite := ZipWrite.fromData "setup.py" (setupPyStr relName ver tp folderDsts)
      match topPath with
      | none =>
        (pWrites ++ cWrites ++ iWrites ++ [sWrite],
         some "TypeError: expected str, bytes or os.PathLike object, not NoneType")
      | some p =>
        (pWrites ++ cWrites ++ iWrites ++
          [sWrite, ZipWrite.fromData topInit (rewriteInit (readFile p) ver)],
         none)

/-! ### Reading back the descriptor (round-trip observer) -/

/-- Split a character sequence at newlines (the line separation a reader
of the descriptor text performs). -/
def splitNl : List Char → List (List Char)
  | [] => [[]]
  | c :: cs =>
    if c = '\n' then [] :: splitNl cs
    else
      match splitNl cs with
      | [] => [[c]]
      | l :: ls => (c :: l) :: ls

/-- Modelled from the spec: reading one declaration line of the
generated descriptor.  A line of the shape three spaces, the key, an
equals sign, a quoted value and a trailing comma yields the value. -/
def fieldVal (key : String) (line : List Char) : Option (List Char) :=
  let pre := ("   " ++ key ++ "='").data
  if pre.isPrefixOf line && ['\'', ','].isSuffixOf line then
    some ((line.drop pre.length).dropLast.dropLast)
  else none

/-- Modelled from the spec: reading the declared value of `key` from the
descriptor text, namely the value of the first declaration line for
`key`. -/
def readDescriptorField (key : String) (text : String) : Option String :=
  (((splitNl text.data).filterMap (fieldVal key)).head?).map String.mk

/-! ### Source archive construction (buildCpswFile) -/

/-- `buildCpswFile`, as the list of (source path, archive path) pairs
added to the tar file: file-type source-group entries under the release
base directory, then file-type config-group entries under its `config`
subdirectory; folder-type entries are skipped and every `add` call is
non-recursive. -/
def buildCpswEntries (relName : String) (sList cList : List FileEntry) :
    Except String (List (String × String)) :=
  if sList.length = 0 then
    Except.error "Invalid release config. Cpsw packages list is empty!"
  else
    let baseDir := relName ++ "_project.yaml"
    Except.ok
      ((sList.filter (fun e => e.type = "file")).map (fun e =>
        (e.fullPath, baseDir ++ "/" ++ e.subPath)) ++
       (cList.filter (fun e => e.type = "file")).map (fun e =>
        (e.fullPath, baseDir ++ "/config/" ++ e.subPath)))

/-! ### Publishing (pushRelease) -/

/-- The state of the local repository the publisher opens. -/
structure RepoState where
  url : String
  dirty : Bool
deriving DecidableEq, Repr

/-- A mutating action the publisher performs on the repository or the
remote hosting service, in order. -/
inductive GitAction where
  | createTag (name msg : String)
  | pushTag (name : String)
  | createRelease (tag title : String)
  | uploadAsset (path : String)
deriving DecidableEq, Repr

/-- The lazy `name` group of the project regex: the shortest prefix of
the text after `slaclab/` that is followed by a dot, a g and an i (the
optional trailing t does not constrain the name). -/
def lazyProjectName : List Char → Option (List Char)
  | [] => none
  | c :: cs =>
    if ['.', 'g', 'i'].isPrefixOf (c :: cs) then some []
    else (lazyProjectName cs).map (fun n => c :: n)

/-- Leftmost search for the project regex over the remote URL: at each
position try to match `slaclab/` and then the lazy name group. -/
def extractProject : List Char → Option (List Char)
  | [] => none
  | c :: cs =>
    if "slaclab/".data.isPrefixOf (c :: cs) then
      match lazyProjectName ((c :: cs).drop 8) with
      | some n => some n
      | none => extractProject cs
    else extractProject cs

/-- `pushRelease`, as the ordered trace of mutating actions plus the
error that aborts publishing, if any.  The script opens the repository,
derives the project name from the remote URL, checks for a dirty working
tree, and only then creates and pushes the tag, creates the remote
release and uploads the attachments. -/
def pushRelease (st : RepoState) (relName ver : String) (tagAttach : List String) :
    List GitAction × Option String :=
  let url := if ".git".data.isSuffixOf st.url.data then st.url else st.url ++ ".git"
  match extractProject url.data with
  | none => ([], some "AttributeError: NoneType object has no attribute group")
  | some _ =>
    if st.dirty then
      ([], some "Cannot create tag! Git repo is dirty!")
    else
      let tag := relName ++ "_" ++ ver
      let msg := relName ++ " version " ++ ver
      ([GitAction.createTag tag msg, GitAction.pushTag tag,
        GitAction.createRelease tag msg] ++ tagAttach.map GitAction.uploadAsset,
       none)

/-! ### Lemmas about the Python string order -/

theorem pyLexLe_refl (l : List Char) : pyLexLe l l = true := by
  induction l with
  | nil => rfl
  | cons a as ih => simpa [pyLexLe] using ih

theorem pyLexLe_total (a b : List Char) : pyLexLe a b = true ∨ pyLexLe b a = true := by
  induction a generalizing b with
  | nil => exact Or.inl rfl
  | cons x xs ih =>
    cases b with
    | nil => exact Or.inr rfl
    | cons y ys =>
      by_cases hxy : x = y
      · subst hxy
        simpa [pyLexLe] using ih ys
      · have hyx : y ≠ x := Ne.symm hxy
        have hval : x.toNat ≠ y.toNat := by
          intro hv
          exact hxy (Char.eq_of_val_eq (UInt32.toNat.inj hv))
        rcases Nat.lt_or_ge x.toNat y.toNat with hlt | hge
        · left; simp [pyLexLe, hxy, hlt]
        · right
          have : y.toNat < x.toNat := Nat.lt_of_le_of_ne hge (Ne.symm hval)
          simp [pyLexLe, hyx, this]

theorem pyLexLe_trans {a b c : List Char} (h1 : pyLexLe a b = true)
    (h2 : pyLexLe b c = true) : pyLexLe a c = true := by
  induction a generalizing b c with
  | nil => rfl
  | cons x xs ih =>
    cases b with
    | nil => simp [pyLexLe] at h1
    | cons y ys =>
      cases c with
      | nil => simp [pyLexLe] at h2
      | cons z zs =>
        by_cases hxy : x = y <;> by_cases hyz : y = z
        · subst hxy; subst hyz
          simp only [pyLexLe, if_pos rfl] at h1 h2 ⊢
          exact ih h1 h2
        · subst hxy
          simp only [pyLexLe, if_pos rfl] at h1
          simpa [pyLexLe, hyz] using h2
        · subst hyz
          simpa [pyLexLe, hxy] using h1
        · simp only [pyLexLe, if_neg hxy, decide_eq_true_eq] at h1
          simp only [pyLexLe, if_neg hyz, decide_eq_true_eq] at h2
          have hxz : x ≠ z := by
            intro h
            subst h
            exact Nat.lt_irrefl _ (Nat.lt_trans h1 h2)
          simp [pyLexLe, hxz, Nat.lt_trans h1 h2]

instance : IsTotal String pyStrLe :=
  ⟨fun a b => pyLexLe_total a.data b.data⟩

instance : IsTrans String pyStrLe :=
  ⟨fun _ _ _ h1 h2 => pyLexLe_trans h1 h2⟩

theorem pyStrLe_getLast_max {l : List String} {m : String}
    (hs : l.Sorted pyStrLe) (hm : l.getLast? = some m) :
    ∀ x ∈ l, pyStrLe x m := by
  induction l with
  | nil => simp at hm
  | cons a t ih =>
    intro x hx
    cases t with
    | nil =>
      simp only [List.getLast?_singleton, Option.some.injEq] at hm
      simp only [List.mem_singleton] at hx
      subst hm; subst hx
      exact pyLexLe_refl _
    | cons b t' =>
      rw [List.getLast?_cons_cons] at hm
      rcases List.mem_cons.mp hx with h | h
      · subst h
        have hmem : m ∈ b :: t' := List.mem_of_getLast?_eq_some hm
        exact List.rel_of_sorted_cons hs m hmem
      · exact ih hs.of_cons hm x h

/-! ### Claim theorems -/

/-- C3: for every non-empty candidate base-name set, the
`--build latest` request selects the maximum of the candidates under
Python string order (the lexicographically-last name of the ascending
sort); in particular on the candidates from `fw_1.bit`, `fw_2.bit`,
`fw_10.bit` it selects `fw_2`, not `fw_10`. -/
theorem c3_latest_is_lex_max (target : String) (dirList : List String)
    (h : buildCandidates target dirList ≠ []) :
    (∃ m, selectLatestBuild target dirList = some m ∧
       m ∈ buildCandidates target dirList ∧
       ∀ c ∈ buildCandidates target dirList, pyStrLe c m) ∧
    selectLatestBuild "fw" ["fw_1.bit", "fw_2.bit", "fw_10.bit"] = some "fw_2" ∧
    selectLatestBuild "fw" ["fw_1.bit", "fw_2.bit", "fw_10.bit"] ≠ some "fw_10" := by
  refine ⟨?_, by decide, by decide⟩
  have hperm := List.perm_insertionSort pyStrLe (buildCandidates target dirList)
  have hsorted := List.sorted_insertionSort pyStrLe (buildCandidates target dirList)
  have hne : sortedBuildList target dirList ≠ [] := by
    intro h0
    apply h
    have hlen := hperm.length_eq
    rw [show List.insertionSort pyStrLe (buildCandidates target dirList) =
        sortedBuildList target dirList from rfl, h0] at hlen
    exact List.eq_nil_of_length_eq_zero hlen.symm
  cases hgl : (sortedBuildList target dirList).getLast? with
  | none => exact absurd (List.getLast?_eq_none_iff.mp hgl) hne
  | some m =>
    refine ⟨m, hgl, ?_, ?_⟩
    · exact hperm.mem_iff.mp (List.mem_of_getLast?_eq_some hgl)
    · intro c hc
      have hc' : c ∈ sortedBuildList target dirList := hperm.mem_iff.mpr hc
      exact pyStrLe_getLast_max hsorted hgl c hc'

/-- C3 witness: the hypothesis holds and the selection picks `fw_2` on
the concrete candidate set of the claim. -/
theorem c3_witness :
    buildCandidates "fw" ["fw_1.bit", "fw_2.bit", "fw_10.bit"] ≠ [] ∧
    selectLatestBuild "fw" ["fw_1.bit", "fw_2.bit", "fw_10.bit"] = some "fw_2" :=
  ⟨by decide, (c3_latest_is_lex_max "fw" ["fw_1.bit", "fw_2.bit", "fw_10.bit"]
    (by decide)).2.1⟩

/-- C4 counterexample: a configuration whose `Releases` value is an
explicitly empty mapping is empty yet loads successfully, because the
script only checks for `None`, so loading does not fail on every
empty-valued `Releases` key. -/
theorem c4_counterexample :
    loadReleaseConfig
        [("Releases", YVal.map []), ("Targets", YVal.map [("t", YVal.null)])] =
      Except.ok
        [("Releases", YVal.map []), ("Targets", YVal.map [("t", YVal.null)])] ∧
    yLookup [("Releases", YVal.map []), ("Targets", YVal.map [("t", YVal.null)])]
        "Releases" = some (YVal.map []) :=
  ⟨rfl, rfl⟩

/-- C4 amended: loading fails exactly when `Releases` or `Targets` is
absent or its value is YAML null (the value an empty entry parses to);
when both are present with a non-null value, even an explicitly empty
mapping, loading returns the parsed configuration unchanged. -/
theorem c4_load_iff (cfg : List (String × YVal)) :
    loadReleaseConfig cfg = Except.ok cfg ↔
      (hasNonNull cfg "Releases" && hasNonNull cfg "Targets") = true := by
  unfold loadReleaseConfig
  cases h1 : hasNonNull cfg "Releases" <;>
    cases h2 : hasNonNull cfg "Targets" <;>
      simp [h1, h2]

/-- C5 counterexample: with extensions declared in the order
`mcs`, `bit` and a directory listing `b.bit`, `b.mcs`, the script
returns the artifacts in directory-listing order, not in
extension-declaration order as the claim states. -/
theorem c5_counterexample :
    selectImagesForTarget "d" "b" ["mcs", "bit"] ["b.bit", "b.mcs"] =
      ["d/b.bit", "d/b.mcs"] ∧
    specImagesByExtensionOrder "d" "b" ["mcs", "bit"] ["b.bit", "b.mcs"] =
      ["d/b.mcs", "d/b.bit"] ∧
    selectImagesForTarget "d" "b" ["mcs", "bit"] ["b.bit", "b.mcs"] ≠
      specImagesByExtensionOrder "d" "b" ["mcs", "bit"] ["b.bit", "b.mcs"] := by
  refine ⟨rfl, rfl, ?_⟩
  decide

/-- C5 amended: the selected artifact set contains exactly the files of
the directory listing whose name equals `baseName.ext` for some declared
extension of the target, joined to the image directory, listed in
directory-listing order. -/
theorem c5_images_listing_order (imageDir buildName : String)
    (extensions dirList : List String) :
    selectImagesForTarget imageDir buildName extensions dirList =
      (dirList.filter (fun f =>
        decide (∃ ext ∈ extensions, f = buildName ++ "." ++ ext))).map
        (fun f => pathJoin imageDir f) := by
  unfold selectImagesForTarget
  dsimp only
  congr 1
  apply List.filter_congr
  intro f _
  rw [Bool.eq_iff_iff]
  simp [List.contains_iff_exists_mem_beq, eq_comm]

theorem pyListIndex_ne_validation (l : List String) (i : Int) (v : String) :
    pyListIndex l i ≠ Except.error (SelErr.validation v) := by
  unfold pyListIndex
  split
  · split <;> simp
  · split
    · simp
    · split <;> simp

/-- C10: at both interactive index prompts, the explicit rejection
(`Invalid ... index`) happens exactly for entered indices at least the
number of choices, and every entered integer `idx` with
`-n ≤ idx < 0` is accepted and returns the `(n + idx)`-th choice, by
Python negative indexing. -/
theorem c10_index_prompts (l : List String) (idx : Int) :
    ((∃ v, selectReleaseIndex l idx = Except.error (SelErr.validation v)) ↔
      (l.length : Int) ≤ idx) ∧
    ((∃ v, selectBuildIndex l idx = Except.error (SelErr.validation v)) ↔
      (l.length : Int) ≤ idx) ∧
    (-(l.length : Int) ≤ idx → idx < 0 →
      ∃ v, l.get? ((l.length : Int) + idx).toNat = some v ∧
        selectReleaseIndex l idx = Except.ok v ∧
        selectBuildIndex l idx = Except.ok v) := by
  have hval : ∀ msg, ((∃ v, indexPrompt l idx msg = Except.error (SelErr.validation v)) ↔
      (l.length : Int) ≤ idx) := by
    intro msg
    constructor
    · rintro ⟨v, hv⟩
      by_contra hnot
      rw [indexPrompt, if_neg hnot] at hv
      exact pyListIndex_ne_validation l idx v hv
    · intro hle
      exact ⟨msg, by rw [indexPrompt, if_pos hle]⟩
  have hok : -(l.length : Int) ≤ idx → idx < 0 →
      ∃ v, l.get? ((l.length : Int) + idx).toNat = some v ∧
        ∀ msg, indexPrompt l idx msg = Except.ok v := by
    intro h1 h2
    have hj : ((l.length : Int) + idx).toNat < l.length := by omega
    refine ⟨l[((l.length : Int) + idx).toNat], ?_, ?_⟩
    · rw [List.get?_eq_getElem?]
      exact List.getElem?_eq_getElem hj
    · intro msg
      rw [indexPrompt, if_neg (by omega : ¬ ((l.length : Int) ≤ idx))]
      rw [pyListIndex, if_neg (by omega : ¬ (0 ≤ idx)),
        if_neg (by omega : ¬ ((l.length : Int) + idx < 0)),
        List.get?_eq_getElem?, List.getElem?_eq_getElem hj]
  refine ⟨hval _, hval _, fun h1 h2 => ?_⟩
  obtain ⟨v, hv1, hv2⟩ := hok h1 h2
  exact ⟨v, hv1, hv2 _, hv2 _⟩

/-- C10 witness: the prompts accept the in-range negative index -2 on a
three-element choice list and return the next-to-last choice. -/
theorem c10_witness :
    (-((["a", "b", "c"].length : Int)) ≤ -2 ∧ ((-2 : Int) < 0)) ∧
    (∃ v, ["a", "b", "c"].get? (((["a", "b", "c"].length : Int)) + -2).toNat = some v ∧
      selectReleaseIndex ["a", "b", "c"] (-2) = Except.ok v ∧
      selectBuildIndex ["a", "b", "c"] (-2) = Except.ok v) :=
  ⟨by decide, (c10_index_prompts ["a", "b", "c"] (-2)).2.2 (by decide) (by decide)⟩

theorem cpsw_prefix_shift (relName x : String) :
    (relName ++ "_project.yaml") ++ "/" ++ x = relName ++ "_project.yaml/" ++ x := by
  calc ((relName ++ "_project.yaml") ++ "/") ++ x
      = (relName ++ ("_project.yaml" ++ "/")) ++ x := by
        simp [String.append_assoc]
    _ = relName ++ "_project.yaml/" ++ x := by
        rw [show ("_project.yaml" : String) ++ "/" = "_project.yaml/" from rfl]

theorem cpsw_config_shift (relName x : String) :
    (relName ++ "_project.yaml") ++ "/config/" ++ x =
      relName ++ "_project.yaml/" ++ ("config/" ++ x) := by
  calc ((relName ++ "_project.yaml") ++ "/config/") ++ x
      = (relName ++ ("_project.yaml" ++ "/config/")) ++ x := by
        simp [String.append_assoc]
    _ = (relName ++ "_project.yaml/config/") ++ x := by
        rw [show ("_project.yaml" : String) ++ "/config/" = "_project.yaml/config/" from rfl]
    _ = relName ++ ("_project.yaml/config/" ++ x) := by rw [String.append_assoc]
    _ = relName ++ (("_project.yaml/" ++ "config/") ++ x) := by
        rw [show ("_project.yaml/" : String) ++ "config/" = "_project.yaml/config/" from rfl]
    _ = relName ++ ("_project.yaml/" ++ ("config/" ++ x)) := by
        rw [String.append_assoc]
    _ = (relName ++ "_project.yaml/") ++ ("config/" ++ x) := by
        rw [String.append_assoc]

/-- C7: in every successfully produced source archive, every entry is
rooted under the release base directory prefix, every entry stems from a
file-type entry of the source or config group (directory entries are
skipped), every file-type source-group entry is added at its relative
path under the base directory, and every file-type config-group entry is
added under the config subdirectory of the base directory. -/
theorem c7_cpsw_layout (relName : String) (sList cList : List FileEntry)
    (entries : List (String × String))
    (h : buildCpswEntries relName sList cList = Except.ok entries) :
    (∀ p ∈ entries, ∃ rest, p.2 = relName ++ "_project.yaml/" ++ rest) ∧
    (∀ p ∈ entries, ∃ e, (e ∈ sList ∨ e ∈ cList) ∧ e.type = "file" ∧ p.1 = e.fullPath) ∧
    (∀ e ∈ sList, e.type = "file" →
      (e.fullPath, relName ++ "_project.yaml/" ++ e.subPath) ∈ entries) ∧
    (∀ e ∈ cList, e.type = "file" →
      (e.fullPath, relName ++ "_project.yaml/" ++ ("config/" ++ e.subPath)) ∈ entries) := by
  have hsplit :
      entries =
        (sList.filter (fun e => e.type = "file")).map (fun e =>
          (e.fullPath, (relName ++ "_project.yaml") ++ "/" ++ e.subPath)) ++
        (cList.filter (fun e => e.type = "file")).map (fun e =>
          (e.fullPath, (relName ++ "_project.yaml") ++ "/config/" ++ e.subPath)) := by
    unfold buildCpswEntries at h
    split at h
    · exact absurd h (by simp)
    · exact (Except.ok.inj h).symm
  subst hsplit
  refine ⟨?_, ?_, ?_, ?_⟩
  · intro p hp
    rcases List.mem_append.mp hp with hmem | hmem <;>
      obtain ⟨e, _, rfl⟩ := List.mem_map.mp hmem
    · exact ⟨e.subPath, cpsw_prefix_shift relName e.subPath⟩
    · exact ⟨"config/" ++ e.subPath, cpsw_config_shift relName e.subPath⟩
  · intro p hp
    rcases List.mem_append.mp hp with hmem | hmem <;>
      obtain ⟨e, he, rfl⟩ := List.mem_map.mp hmem
    · have := List.mem_filter.mp he
      exact ⟨e, Or.inl this.1, by simpa using this.2, rfl⟩
    · have := List.mem_filter.mp he
      exact ⟨e, Or.inr this.1, by simpa using this.2, rfl⟩
  · intro e he htype
    refine List.mem_append.mpr (Or.inl ?_)
    rw [← cpsw_prefix_shift relName e.subPath]
    exact List.mem_map.mpr ⟨e, List.mem_filter.mpr ⟨he, by simpa using htype⟩, rfl⟩
  · intro e he htype
    refine List.mem_append.mpr (Or.inr ?_)
    rw [← cpsw_config_shift relName e.subPath]
    exact List.mem_map.mpr ⟨e, List.mem_filter.mpr ⟨he, by simpa using htype⟩, rfl⟩

/-- C7 witness: a concrete archive with one source file, one skipped
source directory and one config file satisfies the layout theorem. -/
theorem c7_witness :
    buildCpswEntries "r" [⟨"file", "/f/a", "a"⟩, ⟨"folder", "/f/d", "d"⟩]
        [⟨"file", "/f/c", "c"⟩] =
      Except.ok [("/f/a", "r_project.yaml/a"), ("/f/c", "r_project.yaml/config/c")] ∧
    (∀ p ∈ [("/f/a", "r_project.yaml/a"), ("/f/c", "r_project.yaml/config/c")],
      ∃ rest, p.2 = "r" ++ "_project.yaml/" ++ rest) :=
  ⟨rfl,
    (c7_cpsw_layout "r" [⟨"file", "/f/a", "a"⟩, ⟨"folder", "/f/d", "d"⟩]
      [⟨"file", "/f/c", "c"⟩]
      [("/f/a", "r_project.yaml/a"), ("/f/c", "r_project.yaml/config/c")] rfl).1⟩

/-- C8: publishing against a dirty working tree fails, and the trace of
mutating actions is empty: no tag is created or pushed, no release is
created, nothing is uploaded, so the repository state is unchanged by
the failed call. -/
theorem c8_dirty_blocks_publish (st : RepoState) (relName ver : String)
    (tagAttach : List String) (h : st.dirty = true) :
    (pushRelease st relName ver tagAttach).2.isSome = true ∧
    (pushRelease st relName ver tagAttach).1 = [] := by
  unfold pushRelease
  dsimp only
  split
  · exact ⟨rfl, rfl⟩
  · simp [h]

/-- C8 witness: a dirty repository with a well-formed remote URL yields
an error and an empty action trace. -/
theorem c8_witness :
    (RepoState.mk "https://github.com/slaclab/x" true).dirty = true ∧
    ((pushRelease (RepoState.mk "https://github.com/slaclab/x" true) "r" "v1"
        ["/f/a.bit"]).2.isSome = true ∧
     (pushRelease (RepoState.mk "https://github.com/slaclab/x" true) "r" "v1"
        ["/f/a.bit"]).1 = []) :=
  ⟨rfl, c8_dirty_blocks_publish (RepoState.mk "https://github.com/slaclab/x" true)
    "r" "v1" ["/f/a.bit"] rfl⟩

theorem filterMap_eq_map_of {α β : Type} (f : α → Option β) (g : α → β) (l : List α)
    (h : ∀ e ∈ l, f e = some (g e)) : l.filterMap f = l.map g := by
  induction l with
  | nil => rfl
  | cons a t ih =>
    rw [List.filterMap_cons, h a (List.mem_cons_self a t), List.map_cons,
      ih (fun e he => h e (List.mem_cons_of_mem a he))]

/-- C9: when no primary-group entry has relative path
`TopPackage/__init__.py`, building the package archive fails (the
captured initializer path is never set), and the failure happens only
after every primary, config and image entry and the synthesized
`setup.py` have already been written into the archive, which is left on
disk partially written. -/
theorem c9_missing_init_fails_late (tp relName ver : String)
    (pList cList : List FileEntry) (imgList : List String)
    (readFile : String → List String)
    (hne : pList ≠ [])
    (hmiss : ∀ e ∈ pList, e.subPath ≠ tp ++ "/__init__.py") :
    (buildRogueTrace (some tp) relName ver pList cList imgList readFile).2.isSome = true ∧
    (buildRogueTrace (some tp) relName ver pList cList imgList readFile).1 =
      pList.map (fun e => ZipWrite.fromDisk e.fullPath e.subPath) ++
      cList.map (fun e => ZipWrite.fromDisk e.fullPath (tp ++ "/config/" ++ e.subPath)) ++
      imgList.map (fun p => ZipWrite.fromDisk p (tp ++ "/images/" ++ pyBasename p)) ++
      [ZipWrite.fromData "setup.py" (setupPyStr relName ver tp
        ((pList.filter (fun e => e.type = "folder")).map (fun e => e.subPath)))] ∧
    (buildRogueTrace (some tp) relName ver pList cList imgList readFile).1 ≠ [] := by
  have hlen : ¬ (pList.length = 0) := by
    simpa [List.length_eq_zero] using hne
  have hfilter : pList.filter (fun e => e.subPath = tp ++ "/__init__.py") = [] :=
    List.filter_eq_nil_iff.mpr (fun e he => by simpa using hmiss e he)
  have hpw : pList.filterMap (fun e =>
      if e.subPath = tp ++ "/__init__.py" then none
      else some (ZipWrite.fromDisk e.fullPath e.subPath)) =
      pList.map (fun e => ZipWrite.fromDisk e.fullPath e.subPath) :=
    filterMap_eq_map_of _ _ _ (fun e he => by rw [if_neg (hmiss e he)])
  unfold buildRogueTrace
  rw [if_neg hlen]
  dsimp only
  rw [hfilter, hpw]
  refine ⟨rfl, by simp [List.append_assoc], by simp⟩

/-- C9 witness: a primary group with a single non-initializer file
produces the error after writing that file and the descriptor. -/
theorem c9_witness :
    (([FileEntry.mk "file" "/p/x.py" "x.py"] : List FileEntry) ≠ [] ∧
      ∀ e ∈ ([FileEntry.mk "file" "/p/x.py" "x.py"] : List FileEntry),
        e.subPath ≠ "top" ++ "/__init__.py") ∧
    (buildRogueTrace (some "top") "rel" "v1" [FileEntry.mk "file" "/p/x.py" "x.py"]
      [] [] (fun _ => [])).2.isSome = true :=
  ⟨⟨by decide, by decide⟩,
    (c9_missing_init_fails_late "top" "rel" "v1" [FileEntry.mk "file" "/p/x.py" "x.py"]
      [] [] (fun _ => []) (by decide) (by decide)).1⟩

theorem config_data_ne_init (xd : List Char) :
    "/config/".data ++ xd ≠ "/__init__.py".data := by
  rw [show "/config/".data = '/' :: 'c' :: "onfig/".data from rfl,
      show "/__init__.py".data = '/' :: '_' :: "_init__.py".data from rfl]
  intro h
  rw [List.cons_append, List.cons_append] at h
  exact absurd (List.cons.inj (List.cons.inj h).2).1 (by decide)

theorem images_data_ne_init (xd : List Char) :
    "/images/".data ++ xd ≠ "/__init__.py".data := by
  rw [show "/images/".data = '/' :: 'i' :: "mages/".data from rfl,
      show "/__init__.py".data = '/' :: '_' :: "_init__.py".data from rfl]
  intro h
  rw [List.cons_append, List.cons_append] at h
  exact absurd (List.cons.inj (List.cons.inj h).2).1 (by decide)

theorem config_path_ne_init (tp x : String) :
    tp ++ "/config/" ++ x ≠ tp ++ "/__init__.py" := by
  intro h
  have hd := congrArg String.data h
  simp only [String.data_append, List.append_assoc] at hd
  exact config_data_ne_init x.data (List.append_cancel_left hd)

theorem images_path_ne_init (tp x : String) :
    tp ++ "/images/" ++ x ≠ tp ++ "/__init__.py" := by
  intro h
  have hd := congrArg String.data h
  simp only [String.data_append, List.append_assoc] at hd
  exact images_data_ne_init x.data (List.append_cancel_left hd)

/-- C1: in every package-archive build that captures the top-package
initializer (some primary entry has its relative path, the captured disk
path being the last such entry's), the build succeeds, no raw file is
copied into the archive at the initializer's relative path, and the
archive receives at that path a synthesized file whose content is the
original content with every line containing one of the four markers
removed, followed by the appended block holding the supplied version
string and the two path constants. -/
theorem c1_init_rewrite (tp relName ver : String)
    (pList cList : List FileEntry) (imgList : List String)
    (readFile : String → List String) (p0 : String)
    (hlast : ((pList.filter (fun e => e.subPath = tp ++ "/__init__.py")).map
      (fun e => e.fullPath)).getLast? = some p0) :
    (buildRogueTrace (some tp) relName ver pList cList imgList readFile).2 = none ∧
    (∀ w ∈ (buildRogueTrace (some tp) relName ver pList cList imgList readFile).1,
      w.isDisk = true → w.dst ≠ tp ++ "/__init__.py") ∧
    ZipWrite.fromData (tp ++ "/__init__.py")
        (String.join ((readFile p0).filter (fun l => !strippedMarker l)) ++
          appendedBlock ver) ∈
      (buildRogueTrace (some tp) relName ver pList cList imgList readFile).1 := by
  have hlen : ¬ (pList.length = 0) := by
    intro h0
    rw [List.length_eq_zero] at h0
    subst h0
    simp at hlast
  unfold buildRogueTrace
  rw [if_neg hlen]
  dsimp only
  rw [hlast]
  refine ⟨rfl, ?_, ?_⟩
  · intro w hw hdisk
    rcases List.mem_append.mp hw with hw | hw
    · rcases List.mem_append.mp hw with hw | hw
      · rcases List.mem_append.mp hw with hw | hw
        · obtain ⟨e, _, heq⟩ := List.mem_filterMap.mp hw
          by_cases hsub : e.subPath = tp ++ "/__init__.py"
          · rw [if_pos hsub] at heq
            exact absurd heq (by simp)
          · rw [if_neg hsub] at heq
            cases heq
            exact hsub
        · obtain ⟨e, _, heq⟩ := List.mem_map.mp hw
          cases heq
          exact config_path_ne_init tp e.subPath
      · obtain ⟨p, _, heq⟩ := List.mem_map.mp hw
        cases heq
        exact images_path_ne_init tp (pyBasename p)
    · rcases List.mem_cons.mp hw with hw | hw
      · subst hw
        simp [ZipWrite.isDisk] at hdisk
      · rcases List.mem_cons.mp hw with hw | hw
        · subst hw
          simp [ZipWrite.isDisk] at hdisk
        · simp at hw
  · refine List.mem_append.mpr (Or.inr ?_)
    refine List.mem_cons.mpr (Or.inr ?_)
    refine List.mem_cons.mpr (Or.inl ?_)
    rfl

/-- C1 witness: a one-entry primary group whose entry is the initializer
itself is captured, the build succeeds, and the rewritten initializer
keeps only unmarked lines before the appended block. -/
theorem c1_witness :
    ((([FileEntry.mk "file" "/p/top/TOPINIT" "top/__init__.py"] : List FileEntry).filter
        (fun e => e.subPath = "top" ++ "/__init__.py")).map
      (fun e => e.fullPath)).getLast? = some "/p/top/TOPINIT" ∧
    (buildRogueTrace (some "top") "rel" "v1"
      [FileEntry.mk "file" "/p/top/TOPINIT" "top/__init__.py"] [] []
      (fun _ => ["import os\n", "keep\n"])).2 = none :=
  ⟨by decide,
    (c1_init_rewrite "top" "rel" "v1"
      [FileEntry.mk "file" "/p/top/TOPINIT" "top/__init__.py"] [] []
      (fun _ => ["import os\n", "keep\n"]) "/p/top/TOPINIT" (by decide)).1⟩

/-- The (absolute path, type tag) projection of the entries one walk
step contributes, for a whole walk listing. -/
def projWalk (L : List (String × List String × List String)) : List (String × String) :=
  L.flatMap (fun t =>
    t.2.1.map (fun m => (pathJoin t.1 m, "folder")) ++
    t.2.2.map (fun m => (pathJoin t.1 m, "file")))

theorem proj_genFileList (base root : String) (names : List String) (typ : String) :
    (genFileList base root names typ).map (fun e => (e.fullPath, e.type)) =
      names.map (fun n => (pathJoin root n, typ)) := by
  simp only [genFileList, List.map_map]
  rfl

theorem projWalk_cons (t : String × List String × List String)
    (ts : List (String × List String × List String)) :
    projWalk (t :: ts) =
      (t.2.1.map (fun m => (pathJoin t.1 m, "folder")) ++
       t.2.2.map (fun m => (pathJoin t.1 m, "file"))) ++ projWalk ts := by
  simp [projWalk]

theorem projWalk_append (X Y : List (String × List String × List String)) :
    projWalk (X ++ Y) = projWalk X ++ projWalk Y := by
  simp [projWalk]

theorem map_proj_walkEntries (base : String) (children : FsListing) :
    (walkEntries base children).map (fun e => (e.fullPath, e.type)) =
      projWalk (walkDir base children) := by
  unfold walkEntries
  generalize walkDir base children = L
  induction L with
  | nil => rfl
  | cons t ts ih =>
    simp only [List.flatMap_cons, List.map_append, proj_genFileList, ih, projWalk_cons]

theorem projWalk_walkDir_perm (children : FsListing) : ∀ b : String,
    (projWalk (walkDir b children)).Perm (allNodes b children) := by
  induction children with
  | nil =>
    intro b
    simp [walkDir, walkSubdirs, projWalk, dirNames, fileNames, allNodes]
  | file n rest ih =>
    intro b
    rw [← Multiset.coe_eq_coe]
    have ihm := Multiset.coe_eq_coe.mpr (ih b)
    rw [show allNodes b (FsListing.file n rest) =
        (pathJoin b n, "file") :: allNodes b rest from rfl,
      show walkDir b (FsListing.file n rest) =
        (b, dirNames rest, (n :: fileNames rest)) :: walkSubdirs b rest from rfl,
      projWalk_cons]
    rw [show walkDir b rest = (b, dirNames rest, fileNames rest) :: walkSubdirs b rest
      from rfl, projWalk_cons] at ihm
    simp only [List.map_cons, ← Multiset.coe_add, ← Multiset.cons_coe,
      ← Multiset.singleton_add] at ihm ⊢
    rw [← ihm]
    abel
  | dir n cs rest ihcs ihrest =>
    intro b
    rw [← Multiset.coe_eq_coe]
    have ihcsm := Multiset.coe_eq_coe.mpr (ihcs (pathJoin b n))
    have ihrestm := Multiset.coe_eq_coe.mpr (ihrest b)
    rw [show allNodes b (FsListing.dir n cs rest) =
        (pathJoin b n, "folder") ::
          (allNodes (pathJoin b n) cs ++ allNodes b rest) from rfl,
      show walkDir b (FsListing.dir n cs rest) =
        (b, (n :: dirNames rest), fileNames rest) ::
          ((pathJoin b n, dirNames cs, fileNames cs) ::
            (walkSubdirs (pathJoin b n) cs ++ walkSubdirs b rest)) from rfl,
      projWalk_cons, projWalk_cons, projWalk_append]
    rw [show walkDir b rest = (b, dirNames rest, fileNames rest) :: walkSubdirs b rest
      from rfl, projWalk_cons] at ihrestm
    rw [show walkDir (pathJoin b n) cs =
        (pathJoin b n, dirNames cs, fileNames cs) :: walkSubdirs (pathJoin b n) cs
      from rfl, projWalk_cons] at ihcsm
    simp only [List.map_cons, ← Multiset.coe_add, ← Multiset.cons_coe,
      ← Multiset.singleton_add] at ihcsm ihrestm ⊢
    rw [← ihcsm, ← ihrestm]
    abel

/-- C6 counterexample: the relative path is computed by replacing every
occurrence of the base prefix, not by stripping the leading one.  On the
tree `b/x/fw/b/f.txt` under firmware directory `/fw` with base `/fw/b`,
the file's absolute path `/fw/b/x/fw/b/f.txt` contains the text `/fw/b/`
twice, and the recorded relative path is `xf.txt` rather than the
prefix-stripped `x/fw/b/f.txt`. -/
theorem c6_counterexample :
    ∃ e ∈ walkEntries "/fw/b"
        (FsListing.dir "x" (FsListing.dir "fw" (FsListing.dir "b"
          (FsListing.file "f.txt" FsListing.nil) FsListing.nil) FsListing.nil)
          FsListing.nil),
      e.subPath ≠ specStripBaseDir "/fw/b" e.fullPath ∧ e.subPath = "xf.txt" := by
  decide

/-- C6 amended: the resolver records every directory and every file
under the base directory with the matching kind tag, the recorded
relative path is the absolute path with every occurrence of the base
prefix followed by a separator deleted (which coincides with stripping
the leading prefix whenever that text occurs nowhere else in the path),
and on the tree `base/(a.txt, sub/b.txt)` the recorded relative paths
are exactly `a.txt`, `sub`, `sub/b.txt` with prefix-stripped values. -/
theorem c6_resolver (base : String) (children : FsListing) :
    ((walkEntries base children).map (fun e => (e.fullPath, e.type))).Perm
      (allNodes base children) ∧
    (∀ e ∈ walkEntries base children,
      e.subPath = String.mk (replaceDrop (base ++ "/").data e.fullPath.data)) ∧
    ((walkEntries "/fw/base" (FsListing.file "a.txt" (FsListing.dir "sub"
        (FsListing.file "b.txt" FsListing.nil) FsListing.nil))).map
      (fun e => (e.subPath, e.type))).Perm
      [("a.txt", "file"), ("sub", "folder"), ("sub/b.txt", "file")] ∧
    (∀ e ∈ walkEntries "/fw/base" (FsListing.file "a.txt" (FsListing.dir "sub"
        (FsListing.file "b.txt" FsListing.nil) FsListing.nil)),
      e.subPath = specStripBaseDir "/fw/base" e.fullPath) := by
  refine ⟨?_, ?_, by decide, by decide⟩
  · rw [map_proj_walkEntries]
    exact projWalk_walkDir_perm children base
  · intro e he
    unfold walkEntries at he
    obtain ⟨t, _, he⟩ := List.mem_flatMap.mp he
    rcases List.mem_append.mp he with he | he <;>
    · simp only [genFileList] at he
      obtain ⟨m, _, rfl⟩ := List.mem_map.mp he
      rfl

/-- C6 witness: applied to the concrete tree of the claim, the recorded
relative paths are exactly the three expected ones. -/
theorem c6_witness :
    ((walkEntries "/fw/base" (FsListing.file "a.txt" (FsListing.dir "sub"
        (FsListing.file "b.txt" FsListing.nil) FsListing.nil))).map
      (fun e => (e.subPath, e.type))).Perm
      [("a.txt", "file"), ("sub", "folder"), ("sub/b.txt", "file")] :=
  (c6_resolver "/fw/base" (FsListing.file "a.txt" (FsListing.dir "sub"
    (FsListing.file "b.txt" FsListing.nil) FsListing.nil))).2.2.1

/-! ### Lemmas for reading back the descriptor -/

theorem splitNl_newline (b : List Char) : splitNl ('\n' :: b) = [] :: splitNl b := by
  simp [splitNl]

theorem splitNl_flat (a : List Char) (b : List Char) (ha : '\n' ∉ a) :
    splitNl (a ++ '\n' :: b) = a :: splitNl b := by
  induction a with
  | nil => simp [splitNl]
  | cons c cs ih =>
    have hc : ¬ (c = '\n') := fun h => ha (h ▸ List.mem_cons_self c cs)
    have ha' : '\n' ∉ cs := fun h => ha (List.mem_cons_of_mem c h)
    rw [List.cons_append]
    show (if c = '\n' then [] :: splitNl (cs ++ '\n' :: b)
      else match splitNl (cs ++ '\n' :: b) with
        | [] => [[c]]
        | l :: ls => (c :: l) :: ls) = (c :: cs) :: splitNl b
    rw [if_neg hc, ih ha']

theorem fieldVal_hit (key : String) (r : List Char) :
    fieldVal key ((("   " ++ key ++ "='").data ++ r) ++ ['\'', ',']) = some r := by
  have hpre : (("   " ++ key ++ "='").data).isPrefixOf
      ((("   " ++ key ++ "='").data ++ r) ++ ['\'', ',']) :=
    List.isPrefixOf_iff_prefix.mpr
      (by rw [List.append_assoc]; exact List.prefix_append _ _)
  have hsuf : (['\'', ','] : List Char).isSuffixOf
      ((("   " ++ key ++ "='").data ++ r) ++ ['\'', ',']) :=
    List.isSuffixOf_iff_suffix.mpr (List.suffix_append _ _)
  simp only [fieldVal, hpre, hsuf, Bool.and_self, if_true]
  rw [List.append_assoc, List.drop_left]
  rw [show (r ++ ['\'', ','] : List Char) = (r ++ ['\'']) ++ [','] by simp]
  rw [List.dropLast_concat, List.dropLast_concat]

theorem fieldVal_version_on_nameLine (rd : List Char) :
    fieldVal "version" (("   name='".data ++ rd) ++ ['\'', ',']) = none := by
  cases hp : (("   " ++ "version" ++ "='").data).isPrefixOf
      (("   name='".data ++ rd) ++ ['\'', ',']) with
  | false =>
    simp [fieldVal, hp]
  | true =>
    exfalso
    obtain ⟨t, ht⟩ := List.isPrefixOf_iff_prefix.mp hp
    have h3 := congrArg (fun l => l[3]?) ht
    simp only at h3
    rw [List.getElem?_append_left
        (by decide : (3 : Nat) < ("   " ++ "version" ++ "='").data.length)] at h3
    have hlen : (3 : Nat) < ("   name='".data ++ rd).length := by
      rw [List.length_append]
      have : ("   name='".data).length = 9 := by decide
      omega
    rw [List.getElem?_append_left hlen,
      List.getElem?_append_left (by decide : (3 : Nat) < ("   name='".data).length)] at h3
    exact absurd h3 (by decide)

/-- C2: every produced package archive carries the synthesized
descriptor at the fixed top-level path `setup.py`, and reading the
declared name and version back from that descriptor text yields exactly
the selected release name and the supplied version string (for names and
versions that are single-line, as any well-formed ones are). -/
theorem c2_descriptor_roundtrip (tp relName ver : String)
    (pList cList : List FileEntry) (imgList : List String)
    (readFile : String → List String) (p0 : String)
    (hlast : ((pList.filter (fun e => e.subPath = tp ++ "/__init__.py")).map
      (fun e => e.fullPath)).getLast? = some p0)
    (hr : '\n' ∉ relName.data) (hv : '\n' ∉ ver.data) :
    ZipWrite.fromData "setup.py" (setupPyStr relName ver tp
        ((pList.filter (fun e => e.type = "folder")).map (fun e => e.subPath))) ∈
      (buildRogueTrace (some tp) relName ver pList cList imgList readFile).1 ∧
    (∀ folderDsts, readDescriptorField "name"
      (setupPyStr relName ver tp folderDsts) = some relName) ∧
    (∀ folderDsts, readDescriptorField "version"
      (setupPyStr relName ver tp folderDsts) = some ver) := by
  have hsplit : ∀ folderDsts : List String,
      splitNl ((setupPyStr relName ver tp folderDsts).data) =
        [] :: [] :: "from distutils.core import setup".data :: [] :: "setup (".data ::
        (("   name='".data ++ relName.data) ++ ['\'', ',']) ::
        (("   version='".data ++ ver.data) ++ ['\'', ',']) ::
        "   packages=[".data :: splitNl ((setupPyTail tp folderDsts).data) := by
    intro folderDsts
    have hstep : (setupPyStr relName ver tp folderDsts).data =
        '\n' :: '\n' :: ("from distutils.core import setup".data ++ '\n' :: '\n' ::
          ("setup (".data ++ '\n' :: ("   name='".data ++ (relName.data ++
            ('\'' :: ',' :: '\n' :: ("   version='".data ++ (ver.data ++
              ('\'' :: ',' :: '\n' :: ("   packages=[".data ++ '\n' ::
                (setupPyTail tp folderDsts).data))))))))) := by
      simp only [setupPyStr, String.data_append, List.append_assoc]
      rfl
    have hnameline : '\n' ∉ (("   name='".data ++ relName.data) ++ ['\'', ',']) := by
      intro hmem
      rcases List.mem_append.mp hmem with h | h
      · rcases List.mem_append.mp h with h | h
        · exact absurd h (by decide)
        · exact hr h
      · exact absurd h (by decide)
    have hverline : '\n' ∉ (("   version='".data ++ ver.data) ++ ['\'', ',']) := by
      intro hmem
      rcases List.mem_append.mp hmem with h | h
      · rcases List.mem_append.mp h with h | h
        · exact absurd h (by decide)
        · exact hv h
      · exact absurd h (by decide)
    rw [hstep, splitNl_newline, splitNl_newline, splitNl_flat _ _ (by decide),
      splitNl_newline, splitNl_flat _ _ (by decide)]
    rw [show "   name='".data ++ (relName.data ++ ('\'' :: ',' :: '\n' ::
        ("   version='".data ++ (ver.data ++ ('\'' :: ',' :: '\n' ::
          ("   packages=[".data ++ '\n' :: (setupPyTail tp folderDsts).data)))))) =
      (("   name='".data ++ relName.data) ++ ['\'', ',']) ++ '\n' ::
        ("   version='".data ++ (ver.data ++ ('\'' :: ',' :: '\n' ::
          ("   packages=[".data ++ '\n' :: (setupPyTail tp folderDsts).data))))
      from by simp]
    rw [splitNl_flat _ _ hnameline]
    rw [show "   version='".data ++ (ver.data ++ ('\'' :: ',' :: '\n' ::
        ("   packages=[".data ++ '\n' :: (setupPyTail tp folderDsts).data))) =
      (("   version='".data ++ ver.data) ++ ['\'', ',']) ++ '\n' ::
        ("   packages=[".data ++ '\n' :: (setupPyTail tp folderDsts).data)
      from by simp]
    rw [splitNl_flat _ _ hverline]
    rw [splitNl_flat _ _ (by decide)]
  have hhitn : fieldVal "name" (("   name='".data ++ relName.data) ++ ['\'', ',']) =
      some relName.data := fieldVal_hit "name" relName.data
  have hhitv : fieldVal "version" (("   version='".data ++ ver.data) ++ ['\'', ',']) =
      some ver.data := fieldVal_hit "version" ver.data
  refine ⟨?_, ?_, ?_⟩
  · have hlen : ¬ (pList.length = 0) := by
      intro h0
      rw [List.length_eq_zero] at h0
      subst h0
      simp at hlast
    unfold buildRogueTrace
    rw [if_neg hlen]
    dsimp only
    rw [hlast]
    refine List.mem_append.mpr (Or.inr ?_)
    exact List.mem_cons_self _ _
  · intro folderDsts
    unfold readDescriptorField
    rw [hsplit folderDsts]
    simp only [List.filterMap_cons,
      (by decide : fieldVal "name" [] = none),
      (by decide : fieldVal "name" "from distutils.core import setup".data = none),
      (by decide : fieldVal "name" "setup (".data = none),
      hhitn, List.head?_cons, Option.map_some']
  · intro folderDsts
    unfold readDescriptorField
    rw [hsplit folderDsts]
    simp only [List.filterMap_cons,
      (by decide : fieldVal "version" [] = none),
      (by decide : fieldVal "version" "from distutils.core import setup".data = none),
      (by decide : fieldVal "version" "setup (".data = none),
      fieldVal_version_on_nameLine relName.data,
      hhitv, List.head?_cons, Option.map_some']

/-- C2 witness: a concrete build captures the initializer, the release
name and version are single-line, and reading the descriptor back
returns them exactly. -/
theorem c2_witness :
    ((([FileEntry.mk "file" "/p/top/TOPINIT2" "top/__init__.py"] : List FileEntry).filter
        (fun e => e.subPath = "top" ++ "/__init__.py")).map
      (fun e => e.fullPath)).getLast? = some "/p/top/TOPINIT2" ∧
    readDescriptorField "name"
      (setupPyStr "myrel" "v1.2.3" "top" ["top", "top/sub"]) = some "myrel" ∧
    readDescriptorField "version"
      (setupPyStr "myrel" "v1.2.3" "top" ["top", "top/sub"]) = some "v1.2.3" :=
  ⟨by decide,
    (c2_descriptor_roundtrip "top" "myrel" "v1.2.3"
      [FileEntry.mk "file" "/p/top/TOPINIT2" "top/__init__.py"] [] [] (fun _ => [])
      "/p/top/TOPINIT2" (by decide) (by decide) (by decide)).2.1 ["top", "top/sub"],
    (c2_descriptor_roundtrip "top" "myrel" "v1.2.3"
      [FileEntry.mk "file" "/p/top/TOPINIT2" "top/__init__.py"] [] [] (fun _ => [])
      "/p/top/TOPINIT2" (by decide) (by decide) (by decide)).2.2 ["top", "top/sub"]⟩

end ReleaseGen
